import Mathlib

/-!
Verification of the table mapping / serialization / comparison core of the
times-excel-reader repository (src/times_reader/__main__.py), over a shallow
embedding of the pandas operations it uses.

Data model: after the `convert_to_string` transform every cell of a DataFrame
is either a string or a pandas missing value (NaN).  We model a cell as
`Option String` (`none` = NaN) and a DataFrame as a list of column names plus
a list of rows, each row a list of cells aligned positionally with the
columns.  Python dicts are modelled as association lists in insertion order.
-/

namespace TimesReader

/-- Lowercasing of a string (Python `str.lower()`), written as a structural
map over the character list so that it evaluates inside the kernel. -/
def strLower (s : String) : String :=
  ⟨s.data.map Char.toLower⟩

/-- Cell of a DataFrame: `none` models a pandas missing value (NaN),
`some s` a string value. -/
abbrev Cell := Option String

/-- Shallow embedding of a pandas DataFrame holding string cells: ordered
column names plus rows aligned positionally with the columns. -/
structure DF where
  cols : List String
  rows : List (List Cell)
deriving DecidableEq, Repr

/-- Positional cell access; out-of-range reads give the missing value.  In the
source all reads are guarded, so with well-formed tables the default never
shows through. -/
def getCell (r : List Cell) (i : Nat) : Cell :=
  r.getD i none

/-- Index of a column label, as pandas column lookup does by name. -/
def DF.colIdx (df : DF) (c : String) : Nat :=
  df.cols.indexOf c

/-- Column extraction `df[c]`: `none` models the KeyError raised by pandas
when the label is absent. -/
def DF.getCol (df : DF) (c : String) : Option (List Cell) :=
  if c ∈ df.cols then some (df.rows.map (fun r => getCell r (df.colIdx c)))
  else none

/-- Column assignment `df[c] = vals`: overwrite an existing column in place,
or append a new column at the right end, as pandas does. -/
def DF.setCol (df : DF) (c : String) (vals : List Cell) : DF :=
  if c ∈ df.cols then
    ⟨df.cols, List.zipWith (fun r v => r.set (df.colIdx c) v) df.rows vals⟩
  else
    ⟨df.cols ++ [c], List.zipWith (fun r v => r ++ [v]) df.rows vals⟩

/-- By-name projection onto a list of column labels: the semantics of both
`df.drop(columns=...)` (keep the non-dropped labels) and `df.loc[:, cols]`
(reorder to the given labels). -/
def projectCols (df : DF) (newCols : List String) : DF :=
  ⟨newCols, df.rows.map (fun r => newCols.map (fun c => getCell r (df.colIdx c)))⟩

/-- Well-formedness of the embedding: column labels are distinct and every
row is aligned with the columns.  Actual pandas DataFrames arriving at
`produce_times_tables` (post `convert_to_string`) satisfy this. -/
def DF.WF (df : DF) : Prop :=
  df.cols.Nodup ∧ ∀ r ∈ df.rows, r.length = df.cols.length

instance (df : DF) : Decidable df.WF := by
  unfold DF.WF
  infer_instance

/-- Modelled from the spec: the Mapping Entry record (`TimesXlMap` in the
`datatypes` module, which is not part of the given sources).  Field names and
meanings follow the spec and the accesses made by `produce_times_tables`:
dict-valued fields (`col_map`, `filter_rows`) are association lists in
insertion order. -/
structure TimesXlMap where
  times_name : String
  xl_name : String
  xl_cols : List String
  times_cols : List String
  col_map : List (String × String)
  filter_rows : List (String × String)
deriving DecidableEq, Repr

/-- Modelled from the spec: the parts of the Mapping Config consumed by the
given sources, namely the entry list and the serialization table order. -/
structure Config where
  times_xl_maps : List TimesXlMap
  dd_table_order : List String
deriving DecidableEq, Repr

/-- Table Store: a Python dict from table name to DataFrame, modelled as an
association list in insertion order with unique keys. -/
abbrev Store := List (String × DF)

/-- Case-insensitive equality test of a cell against a required value, the
semantics of `df[col].str.lower().isin({val.lower()})`: a missing cell never
matches. -/
def cellMatches (c : Cell) (v : String) : Bool :=
  match c with
  | some s => strLower s == strLower v
  | none => false

/-- Row filtering loop of `produce_times_tables` (one iteration per
`filter_rows` item).  When the filter column is absent the source prints a
warning and then still evaluates `df[filter_col]`, which raises KeyError and
aborts the run; the `Except.error` models that abort. -/
def applyFilters (df : DF) : List (String × String) → Except String DF
  | [] => .ok df
  | (fc, fv) :: rest =>
    if fc ∈ df.cols then
      applyFilters
        ⟨df.cols, df.rows.filter (fun r => cellMatches (getCell r (df.colIdx fc)) fv)⟩
        rest
    else .error ("KeyError: " ++ fc)

/-- The techgroup special case: whenever the entry requests a techgroup
column the source assigns the techname column to the techgroup column,
overwriting any existing techgroup column; a missing techname column raises
KeyError. -/
def techgroupStep (xlCols : List String) (df : DF) : Except String DF :=
  if "techgroup" ∈ xlCols then
    match df.getCol "techname" with
    | none => .error "KeyError: techname"
    | some vals => .ok (df.setCol "techgroup" vals)
  else .ok df

/-- The `col_map` materialization loop: `df[times_col] = df[xl_col]` for each
correspondence, in insertion order. -/
def applyColMap (df : DF) : List (String × String) → Except String DF
  | [] => .ok df
  | (tc, xc) :: rest =>
    match df.getCol xc with
    | none => .error ("KeyError: " ++ xc)
    | some vals => applyColMap (df.setCol tc vals) rest

/-- Keep-first deduplication with an accumulator of already seen rows,
matching `drop_duplicates` (which keeps the first occurrence). -/
def dedupFirstAux (seen : List (List Cell)) : List (List Cell) → List (List Cell)
  | [] => []
  | r :: rest =>
    if r ∈ seen then dedupFirstAux seen rest
    else r :: dedupFirstAux (r :: seen) rest

/-- Row deduplication keeping first occurrences, as `df.drop_duplicates()`. -/
def dedupFirst (rows : List (List Cell)) : List (List Cell) :=
  dedupFirstAux [] rows

/-- Row validity mask of `produce_times_tables`: the value-bearing cell is
non-missing, and no cell of the row equals the sentinel string None or the
empty string (a missing cell compares unequal to both, as in pandas). -/
def rowValid (lastIdx : Nat) (r : List Cell) : Bool :=
  (getCell r lastIdx).isSome
    && r.all (fun c => c != some "None")
    && r.all (fun c => c != some "")

/-- Final masking and reordering step
`df.loc[mask, times_cols]` preceded by the mask construction, which reads
`df[times_cols[-1]]`.  Empty `times_cols` would raise IndexError, a missing
value-bearing column or any missing `times_cols` label raises KeyError. -/
def finalizeEntry (timesCols : List String) (df : DF) : Except String DF :=
  match timesCols.getLast? with
  | none => .error "IndexError: times_cols is empty"
  | some lastCol =>
    if lastCol ∈ df.cols then
      if ∀ c ∈ timesCols, c ∈ df.cols then
        .ok (projectCols ⟨df.cols, df.rows.filter (rowValid (df.colIdx lastCol))⟩ timesCols)
      else .error "KeyError: some times_cols are missing"
    else .error ("KeyError: " ++ lastCol)

/-- Column drop of `produce_times_tables`: `df.drop(columns=cols_to_drop)`
with `cols_to_drop` the columns outside `times_cols`, i.e. keep exactly the
columns belonging to `times_cols`, in their current order. -/
def dropToTimes (timesCols : List String) (df : DF) : DF :=
  projectCols df (df.cols.filter (fun c => decide (c ∈ timesCols)))

/-- Row deduplication of a table, `df.drop_duplicates()` (`reset_index` only
renumbers and has no observable counterpart here). -/
def dedupDF (df : DF) : DF :=
  ⟨df.cols, dedupFirst df.rows⟩

/-- Processing of one Mapping Entry whose source table is present, in source
order: row filters, techgroup special case, `xl_cols` precondition (returning
`none` models warn-and-skip), `col_map` materialization, drop of columns
outside `times_cols`, keep-first deduplication, validity masking plus
reordering, and the final empty-table check. -/
def processEntry (m : TimesXlMap) (df0 : DF) : Except String (Option DF) :=
  match applyFilters df0 m.filter_rows with
  | .error e => .error e
  | .ok df1 =>
    match techgroupStep m.xl_cols df1 with
    | .error e => .error e
    | .ok df2 =>
      if ∀ c ∈ m.xl_cols, c ∈ df2.cols then
        match applyColMap df2 m.col_map with
        | .error e => .error e
        | .ok df3 =>
          match finalizeEntry m.times_cols (dedupDF (dropToTimes m.times_cols df3)) with
          | .error e => .error e
          | .ok df6 => if df6.rows.isEmpty then .ok none else .ok (some df6)
      else .ok none

/-- Insert-or-replace on the result dict `result[times_name] = df`: replacing
an existing key keeps its position, as Python dicts do. -/
def storeInsert (s : Store) (k : String) (v : DF) : Store :=
  match s with
  | [] => [(k, v)]
  | p :: rest => if p.1 = k then (k, v) :: rest else p :: storeInsert rest k v

/-- Main loop of `produce_times_tables` over the Mapping Entries: a missing
source table or a skipped entry contributes nothing; an entry-level KeyError
aborts the whole call. -/
def produceAux (input : Store) (acc : Store) : List TimesXlMap → Except String Store
  | [] => .ok acc
  | m :: rest =>
    match input.lookup m.xl_name with
    | none => produceAux input acc rest
    | some df0 =>
      match processEntry m df0 with
      | .error e => .error e
      | .ok none => produceAux input acc rest
      | .ok (some df) => produceAux input (storeInsert acc m.times_name df) rest

/-- The Canonicalizer `produce_times_tables`: applies every Mapping Entry of
the Config to the input Table Store.  Warnings (missing source table, missing
`xl_cols`, unused input tables) are observability only and are not modelled;
unhandled Python exceptions are `Except.error`. -/
def produce_times_tables (config : Config) (input : Store) : Except String Store :=
  produceAux input [] config.times_xl_maps

/-!
Verifier (`compare`): table-level and row-level comparison of a produced
store against a ground-truth store.  Side effects (prints, diff side-files)
are observability; the reported counts and the final ratio computation are
modelled.  `output_dir` is omitted as it only names the side-files.
-/

/-- Suffix stripping applied to ground-truth column names,
`col.split(".")[0]`. -/
def stripDot (c : String) : String :=
  ⟨c.data.takeWhile (fun ch => ch != '.')⟩

/-- Header comparison of `compare`: ground-truth column names, stripped of
the duplicate-column suffix, must equal the produced column names. -/
def headerOk (gtTable dataTable : DF) : Bool :=
  gtTable.cols.map stripDot == dataTable.cols

/-- Row set of a table, as `set(tuple(row) for row in df.to_numpy().tolist())`. -/
def rowSet (df : DF) : Finset (List Cell) :=
  df.rows.toFinset

/-- Ground-truth iteration order of `compare`: descending ground-truth row
count, stable for equal counts (Python `sorted(..., reverse=True)`). -/
def sortGtTables (gt : Store) : Store :=
  List.insertionSort (fun a b => b.2.rows.length ≤ a.2.rows.length) gt

/-- Correct-row contribution of one ground-truth table: the size of the
intersection of the two row sets, counted only when the table is present in
the produced store with a matching header. -/
def correctOf (data : Store) (p : String × DF) : Nat :=
  match data.lookup p.1 with
  | none => 0
  | some dt => if headerOk p.2 dt then (rowSet p.2 ∩ rowSet dt).card else 0

/-- Additional-row contribution of one ground-truth table: produced rows not
in the ground-truth row set, counted only on a header match. -/
def additionalOf (data : Store) (p : String × DF) : Nat :=
  match data.lookup p.1 with
  | none => 0
  | some dt => if headerOk p.2 dt then (rowSet dt \ rowSet p.2).card else 0

/-- Missing-row contribution of one ground-truth table: ground-truth rows not
in the produced row set, counted only on a header match. -/
def missingOf (data : Store) (p : String × DF) : Nat :=
  match data.lookup p.1 with
  | none => 0
  | some dt => if headerOk p.2 dt then (rowSet p.2 \ rowSet dt).card else 0

/-- Observable counts reported by `compare`. -/
structure CompareStats where
  missingTables : List String
  additionalTables : List String
  totalGtRows : Nat
  totalCorrectRows : Nat
  totalAdditionalRows : Nat
  totalMissingRows : Nat
deriving DecidableEq, Repr

/-- The counts computed by `compare`: missing and additional table names by
key-set difference, then per-table row accumulation over the ground truth in
descending size order.  Additional rows start from the full size of the
tables absent from the ground truth. -/
def compareStats (data gt : Store) : CompareStats where
  missingTables := (gt.map Prod.fst).filter (fun n => (data.lookup n).isNone)
  additionalTables := (data.map Prod.fst).filter (fun n => (gt.lookup n).isNone)
  totalGtRows := ((sortGtTables gt).map (fun p => p.2.rows.length)).sum
  totalCorrectRows := ((sortGtTables gt).map (correctOf data)).sum
  totalAdditionalRows :=
    ((data.filter (fun p => (gt.lookup p.1).isNone)).map (fun p => p.2.rows.length)).sum
      + ((sortGtTables gt).map (additionalOf data)).sum
  totalMissingRows := ((sortGtTables gt).map (missingOf data)).sum

/-- The Verifier `compare`: the final summary line divides the correct-row
count by the total ground-truth row count; with zero ground-truth rows that
division raises ZeroDivisionError and aborts, modelled as `Except.error`. -/
def compare (data gt : Store) : Except String CompareStats :=
  if (compareStats data gt).totalGtRows = 0 then
    .error "ZeroDivisionError: division by zero"
  else .ok (compareStats data gt)

/-!
Structured serializer (`write_dd_files`): set and parameter table bodies with
lexicographically sorted lines, grouped into two files.  File-system effects
are observability; the produced text and the fatal missing-VALUE error are
modelled.
-/

/-- Single-quote character, used pervasively by the DD line formats. -/
def qt : String :=
  String.singleton (Char.ofNat 39)

/-- Python `str(x)` on a cell: a missing value prints as nan. -/
def cellStr (c : Cell) : String :=
  match c with
  | some s => s
  | none => "nan"

/-- Line emitted by `convert_set` for one row: all non-TEXT cells joined with
a quote-dot-quote separator and wrapped in quotes, then an optional quoted
description from the TEXT column. -/
def convertSetLine (cols : List String) (hasDescription : Bool) (textIdx : Nat)
    (r : List Cell) : String :=
  qt
    ++ String.intercalate (qt ++ "." ++ qt)
        (((cols.zip r).filter (fun p => p.1 != "TEXT")).map (fun p => cellStr p.2))
    ++ qt
    ++ (if hasDescription then " " ++ qt ++ cellStr (getCell r textIdx) ++ qt else "")
    ++ "\n"

/-- Body lines of a set table, `convert_set`. -/
def convert_set (df : DF) : List String :=
  df.rows.map (convertSetLine df.cols ("TEXT" ∈ df.cols) (df.colIdx "TEXT"))

/-- Line emitted by `convert_parameter` for one row: the non-VALUE cells
joined and quoted as the key (omitted entirely when the joined key text is
empty), followed by the VALUE cell. -/
def convertParameterLine (cols : List String) (valueIdx : Nat) (r : List Cell) : String :=
  match String.intercalate (qt ++ "." ++ qt)
      (((cols.zip r).filter (fun p => p.1 != "VALUE")).map (fun p => cellStr p.2)) with
  | "" => cellStr (getCell r valueIdx) ++ "\n"
  | rowStr => qt ++ rowStr ++ qt ++ " " ++ cellStr (getCell r valueIdx) ++ "\n"

/-- Body lines of a parameter table, `convert_parameter`: a parameter table
without a VALUE column raises KeyError. -/
def convert_parameter (tablename : String) (df : DF) : Except String (List String) :=
  if "VALUE" ∈ df.cols then
    .ok (df.rows.map (convertParameterLine df.cols (df.colIdx "VALUE")))
  else .error ("KeyError: Unable to find VALUE column in parameter " ++ tablename)

/-- Set-table classification: Mapping Entries with no VALUE key in their
`col_map`. -/
def setsOf (config : Config) : List String :=
  (config.times_xl_maps.filter (fun m => !(m.col_map.map Prod.fst).contains "VALUE")).map
    (fun m => m.times_name)

/-- Lexicographic code-point comparison of character lists, the order Python
`sorted` uses on strings; written structurally so it evaluates in the
kernel. -/
def charListLeb : List Char → List Char → Bool
  | [], _ => true
  | _ :: _, [] => false
  | c :: cs, d :: ds =>
    if c.toNat < d.toNat then true
    else if d.toNat < c.toNat then false
    else charListLeb cs ds

/-- String order used to sort the emitted lines. -/
def strLeb (a b : String) : Bool :=
  charListLeb a.data b.data

/-- Text of one table block in a DD file: header, sorted body lines, fixed
terminator. -/
def ddBlock (tablename : String) (isSet : Bool) (lines : List String) : String :=
  (if isSet then "SET " ++ tablename ++ "\n/\n"
   else "PARAMETER\n" ++ tablename ++ " " ++ qt ++ " " ++ qt ++ "/\n")
    ++ String.join (List.insertionSort (fun a b => strLeb a b = true) lines)
    ++ "\n/;\n"

/-- Content of one DD file: the routed table names that exist in the store,
in routing order, each serialized as a set or parameter block. -/
def ddFileContent (tables : Store) (setNames : List String) :
    List String → Except String String
  | [] => .ok ""
  | n :: rest =>
    match tables.lookup n with
    | none => ddFileContent tables setNames rest
    | some df =>
      if n ∈ setNames then
        (ddFileContent tables setNames rest).map (fun s => ddBlock n true (convert_set df) ++ s)
      else
        match convert_parameter n df with
        | .error e => .error e
        | .ok lines =>
          (ddFileContent tables setNames rest).map (fun s => ddBlock n false lines ++ s)

/-- The structured serializer `write_dd_files`: ALL_TS routes to ts.dd, the
remaining tables of `dd_table_order` route to output.dd.  The result is the
written text per file; a parameter table lacking VALUE makes the whole call
fail. -/
def write_dd_files (tables : Store) (config : Config) :
    Except String (List (String × String)) :=
  match ddFileContent tables (setsOf config) ["ALL_TS"] with
  | .error e => .error e
  | .ok ts =>
    match ddFileContent tables (setsOf config)
        (config.dd_table_order.filter (fun t => t != "ALL_TS")) with
    | .error e => .error e
    | .ok out => .ok [("ts.dd", ts), ("output.dd", out)]

/-!
Pointwise row-permutation relation between two stores, and concrete fixtures
used by the claim theorems and witnesses.
-/

/-- Two stores with the same table names in the same order, equal headers,
and per-table row sequences that are permutations of each other. -/
def StoreRowPerm (gt gt2 : Store) : Prop :=
  List.Forall₂
    (fun p q : String × DF => p.1 = q.1 ∧ p.2.cols = q.2.cols ∧ p.2.rows.Perm q.2.rows)
    gt gt2

/-- Mapping Entry of the worked example of the spec (claim C2). -/
def mapEx : TimesXlMap :=
  { times_name := "VAR_TECH", xl_name := "techs",
    xl_cols := ["region", "techname", "value"],
    times_cols := ["REGION", "TECH", "VALUE"],
    col_map := [("REGION", "region"), ("TECH", "techname"), ("VALUE", "value")],
    filter_rows := [("region", "EU")] }

/-- Config holding only the worked-example entry. -/
def cfgEx : Config :=
  ⟨[mapEx], []⟩

/-- Source store of the worked example: table techs with three rows. -/
def inpEx : Store :=
  [("techs", ⟨["region", "techname", "value"],
    [[some "EU", some "T1", some "5"],
     [some "US", some "T2", some "3"],
     [some "EU", some "T3", some "None"]]⟩)]

/-- The single surviving output table of the worked example. -/
def outExDF : DF :=
  ⟨["REGION", "TECH", "VALUE"], [[some "EU", some "T1", some "5"]]⟩

/-- Entry whose `filter_rows` names a column absent from its source table. -/
def mapMissingFilter : TimesXlMap :=
  { times_name := "OUT3", xl_name := "tbl",
    xl_cols := ["a"], times_cols := ["A"],
    col_map := [("A", "a")], filter_rows := [("region", "EU")] }

/-- Config holding only the missing-filter-column entry. -/
def cfgMissingFilter : Config :=
  ⟨[mapMissingFilter], []⟩

/-- Source store for the missing-filter-column entry: table tbl has only
column a. -/
def inpMissingFilter : Store :=
  [("tbl", ⟨["a"], [[some "x"]]⟩)]

/-- Entry that requests a techgroup column from a source table that already
supplies one with its own values. -/
def mapTechgroup : TimesXlMap :=
  { times_name := "OUT", xl_name := "src",
    xl_cols := ["techname", "techgroup", "value"],
    times_cols := ["TECH", "TECHGROUP", "VALUE"],
    col_map := [("TECH", "techname"), ("TECHGROUP", "techgroup"), ("VALUE", "value")],
    filter_rows := [] }

/-- Config holding only the techgroup entry. -/
def cfgTechgroup : Config :=
  ⟨[mapTechgroup], []⟩

/-- Source store for the techgroup entry: techname T1, techgroup G1. -/
def inpTechgroup : Store :=
  [("src", ⟨["techname", "techgroup", "value"], [[some "T1", some "G1", some "5"]]⟩)]

/-- Entry requesting techgroup whose source table lacks the techname column:
a second fatal path inside the Canonicalizer. -/
def mapNoTechname : TimesXlMap :=
  { times_name := "OUT5", xl_name := "s5",
    xl_cols := ["techgroup", "value"], times_cols := ["TECHGROUP", "VALUE"],
    col_map := [("TECHGROUP", "techgroup"), ("VALUE", "value")],
    filter_rows := [] }

/-- Config holding only the techgroup-without-techname entry. -/
def cfgNoTechname : Config :=
  ⟨[mapNoTechname], []⟩

/-- Source store for the techgroup-without-techname entry. -/
def inpNoTechname : Store :=
  [("s5", ⟨["techgroup", "value"], [[some "G1", some "2"]]⟩)]

/-- Set table of the serialization example: one row (A, B) plus a TEXT
description column. -/
def dfSetEx : DF :=
  ⟨["C1", "C2", "TEXT"], [[some "A", some "B", some "desc"]]⟩

/-- Parameter table of the serialization example: one key column and
VALUE equal to 10 for key X. -/
def dfParKeyEx : DF :=
  ⟨["K", "VALUE"], [[some "X", some "10"]]⟩

/-- Parameter table of the serialization example with no key columns. -/
def dfParNoKeyEx : DF :=
  ⟨["VALUE"], [[some "10"]]⟩

/-- Entry classifying output table PAR as a parameter table (its `col_map`
has a VALUE key). -/
def mapPar : TimesXlMap :=
  { times_name := "PAR", xl_name := "s6",
    xl_cols := ["k", "VALUE"], times_cols := ["K", "VALUE"],
    col_map := [("K", "k"), ("VALUE", "VALUE")], filter_rows := [] }

/-- Config routing PAR into output.dd and classifying it as a parameter. -/
def cfgPar : Config :=
  ⟨[mapPar], ["PAR"]⟩

/-- Store holding a structurally malformed parameter table PAR: no VALUE
column. -/
def tblParBad : Store :=
  [("PAR", ⟨["K", "VAL"], [[some "X", some "10"]]⟩)]

/-- Ground-truth store used by the row-permutation witness. -/
def gtPermA : Store :=
  [("t", ⟨["A"], [[some "1"], [some "2"]]⟩)]

/-- The same store with the rows of its one table permuted. -/
def gtPermB : Store :=
  [("t", ⟨["A"], [[some "2"], [some "1"]]⟩)]

/-- Ground-truth store with one table and zero rows in total. -/
def gtZeroRows : Store :=
  [("T", ⟨["A"], []⟩)]

/-- Source table for the techgroup-overwrite witness. -/
def dfTgW : DF :=
  ⟨["techname", "techgroup"], [[some "T1", some "G1"]]⟩

/-- Result of the techgroup assignment on `dfTgW`: the techgroup column now
repeats the techname column. -/
def dfTgW2 : DF :=
  ⟨["techname", "techgroup"], [[some "T1", some "T1"]]⟩

/-- Entry whose output column name contains a dot, tripping the
duplicate-suffix stripping of the header check in `compare`. -/
def mapDot : TimesXlMap :=
  { times_name := "DOT", xl_name := "dot",
    xl_cols := ["a"], times_cols := ["a.1"],
    col_map := [("a.1", "a")], filter_rows := [] }

/-- Config holding only the dotted-column entry. -/
def cfgDot : Config :=
  ⟨[mapDot], []⟩

/-- Well-formed source store for the dotted-column entry. -/
def inpDot : Store :=
  [("dot", ⟨["a"], [[some "5"]]⟩)]

/-- The nonempty store produced from `inpDot`: one table with the dotted
column name. -/
def outDot : Store :=
  [("DOT", ⟨["a.1"], [[some "5"]]⟩)]

/-!
Helper lemmas.
-/

/-- Permuted lists have the same finset of elements. -/
theorem perm_toFinset {α : Type} [DecidableEq α] {l l2 : List α} (h : l.Perm l2) :
    l.toFinset = l2.toFinset := by
  ext a
  simp [List.mem_toFinset, h.mem_iff]

/-- Sums of per-table counts do not depend on the descending-size iteration
order of `compare`. -/
theorem sortGt_sum (gt : Store) (f : String × DF → Nat) :
    ((sortGtTables gt).map f).sum = (gt.map f).sum :=
  List.Perm.sum_eq (List.Perm.map f (List.perm_insertionSort _ gt))

/-- Lookup after insert-or-replace. -/
theorem storeInsert_lookup (s : Store) (k : String) (v : DF) (n : String) :
    (storeInsert s k v).lookup n = if n = k then some v else s.lookup n := by
  induction s with
  | nil =>
    by_cases h : n = k
    · subst h
      simp [storeInsert, List.lookup]
    · have hb : (n == k) = false := beq_eq_false_iff_ne.mpr h
      simp [storeInsert, List.lookup, hb, h]
  | cons p rest ih =>
    obtain ⟨pk, pv⟩ := p
    by_cases hp : pk = k
    · subst hp
      by_cases hn : n = pk
      · subst hn
        simp [storeInsert, List.lookup]
      · have hb : (n == pk) = false := beq_eq_false_iff_ne.mpr hn
        simp [storeInsert, List.lookup, hb, hn]
    · by_cases hn : n = pk
      · subst hn
        simp [storeInsert, hp, List.lookup]
      · have hb : (n == pk) = false := beq_eq_false_iff_ne.mpr hn
        simp [storeInsert, hp, List.lookup, hb, ih]

/-- Successful finalization reorders the columns to exactly `times_cols`. -/
theorem finalizeEntry_ok_cols {tc : List String} {df out : DF}
    (h : finalizeEntry tc df = .ok out) : out.cols = tc := by
  unfold finalizeEntry at h
  split at h
  · exact Except.noConfusion h
  · split at h
    · split at h
      · injection h with h3
        rw [← h3]
        rfl
      · exact Except.noConfusion h
    · exact Except.noConfusion h

/-- A stored entry result has the declared columns and at least one row. -/
theorem processEntry_some {m : TimesXlMap} {df0 df : DF}
    (h : processEntry m df0 = .ok (some df)) :
    df.cols = m.times_cols ∧ df.rows ≠ [] := by
  unfold processEntry at h
  split at h
  · exact Except.noConfusion h
  · split at h
    · exact Except.noConfusion h
    · split at h
      · split at h
        · exact Except.noConfusion h
        · split at h
          · exact Except.noConfusion h
          · rename_i df6 h4
            split at h
            · injection h with h5
              exact Option.noConfusion h5
            · rename_i hemp
              injection h with h5
              have h6 : df6 = df := by injection h5
              subst h6
              refine ⟨finalizeEntry_ok_cols h4, ?_⟩
              intro hnil
              exact hemp (by rw [hnil]; rfl)
      · injection h with h5
        exact Option.noConfusion h5

/-- Every table in the result of the Canonicalizer loop either was already in
the accumulator or is the successfully processed output of some entry of the
remaining Mapping Config. -/
theorem produceAux_entry (input : Store) (maps : List TimesXlMap) :
    ∀ (acc r : Store), produceAux input acc maps = .ok r →
      ∀ name df, r.lookup name = some df →
        acc.lookup name = some df
          ∨ ∃ m, m ∈ maps ∧ m.times_name = name
              ∧ ∃ df0, input.lookup m.xl_name = some df0
                  ∧ processEntry m df0 = .ok (some df) := by
  induction maps with
  | nil =>
    intro acc r h name df hl
    unfold produceAux at h
    injection h with h1
    subst h1
    exact .inl hl
  | cons m rest ih =>
    intro acc r h name df hl
    unfold produceAux at h
    split at h
    · rcases ih acc r h name df hl with hacc | ⟨m2, hm2, hn2, hrest⟩
      · exact .inl hacc
      · exact .inr ⟨m2, List.mem_cons_of_mem _ hm2, hn2, hrest⟩
    · rename_i df0 hin
      split at h
      · exact Except.noConfusion h
      · rcases ih acc r h name df hl with hacc | ⟨m2, hm2, hn2, hrest⟩
        · exact .inl hacc
        · exact .inr ⟨m2, List.mem_cons_of_mem _ hm2, hn2, hrest⟩
      · rename_i dfN hpe
        rcases ih _ r h name df hl with hacc | ⟨m2, hm2, hn2, hrest⟩
        · rw [storeInsert_lookup] at hacc
          by_cases hname : name = m.times_name
          · rw [if_pos hname] at hacc
            injection hacc with h6
            subst h6
            exact .inr ⟨m, List.mem_cons_self _ _, hname.symm, df0, hin, hpe⟩
          · rw [if_neg hname] at hacc
            exact .inl hacc
        · exact .inr ⟨m2, List.mem_cons_of_mem _ hm2, hn2, hrest⟩

/-!
Claim theorems.
-/

/-- Claim C1: every table stored by `produce_times_tables` comes from a
Mapping Entry whose preconditions were met, and carries exactly that entry's
`times_cols` as its columns, in order, and no others. -/
theorem c1_produced_columns (config : Config) (input r : Store)
    (hok : produce_times_tables config input = .ok r)
    (name : String) (df : DF) (hl : r.lookup name = some df) :
    ∃ m, m ∈ config.times_xl_maps ∧ m.times_name = name ∧ df.cols = m.times_cols := by
  rcases produceAux_entry input config.times_xl_maps [] r hok name df hl with
    hacc | ⟨m, hm, hn, df0, hdf0, hpe⟩
  · exact Option.noConfusion hacc
  · exact ⟨m, hm, hn, (processEntry_some hpe).1⟩

/-- Witness for C1 at the worked example. -/
theorem c1_witness :
    ∃ m, m ∈ cfgEx.times_xl_maps ∧ m.times_name = "VAR_TECH" ∧ outExDF.cols = m.times_cols :=
  c1_produced_columns cfgEx inpEx [("VAR_TECH", outExDF)] (by rfl) "VAR_TECH" outExDF (by rfl)

/-- Claim C2: the worked example produces exactly one output row, the US row
being removed by the region filter and the sentinel-None row by the row
validity rule. -/
theorem c2_worked_example :
    produce_times_tables cfgEx inpEx = .ok [("VAR_TECH", outExDF)] := by
  rfl

/-- Claim C3 (evaluation at the failing input): an entry whose `filter_rows`
names a column absent from the source table makes `produce_times_tables`
abort with a KeyError instead of continuing without the filter. -/
theorem c3_missing_filter_column_aborts :
    produce_times_tables cfgMissingFilter inpMissingFilter = .error "KeyError: region" := by
  rfl

/-- Claim C4 counterexample: the set row (A, B) with description desc does
not serialize to the single-quoted dotted-pair line the claim states; each
element is quoted individually. -/
theorem c4_counterexample :
    convert_set dfSetEx ≠ [qt ++ "A.B" ++ qt ++ " " ++ qt ++ "desc" ++ qt ++ "\n"] := by
  decide

/-- Claim C4 as amended: set rows quote every element and join them with
dots, and the parameter rows serialize as the claim states. -/
theorem c4_amended_serialization :
    convert_set dfSetEx
        = [qt ++ "A" ++ qt ++ "." ++ qt ++ "B" ++ qt ++ " " ++ qt ++ "desc" ++ qt ++ "\n"]
      ∧ convert_parameter "P" dfParKeyEx = .ok [qt ++ "X" ++ qt ++ " 10\n"]
      ∧ convert_parameter "P2" dfParNoKeyEx = .ok ["10\n"] :=
  ⟨by rfl, by rfl, by rfl⟩

/-- Claim C5 counterexample: the missing-VALUE check of `write_dd_files` is
not the only non-lenient path of the Canonicalizer/Serializer combination;
the Canonicalizer itself aborts fatally when an entry requests techgroup and
the source lacks a techname column. -/
theorem c5_counterexample_other_fatal_path :
    produce_times_tables cfgNoTechname inpNoTechname = .error "KeyError: techname" := by
  rfl

/-- Claim C7 counterexample, both failure modes of the claim over producible
stores.  First, the empty store is a producible output and comparing it
against itself aborts with a division by zero instead of reporting a 100
percent ratio.  Second, a nonempty store produced from a well-formed input
whose output column name contains a dot is also producible; its
self-comparison completes, but the duplicate-suffix stripping makes the
header check fail, so zero correct rows are reported out of one ground-truth
row — not 100 percent. -/
theorem c7_counterexample :
    (produce_times_tables ⟨[], []⟩ [] = .ok []
      ∧ compare [] [] = .error "ZeroDivisionError: division by zero")
    ∧ ((∀ p ∈ inpDot, p.2.WF)
      ∧ produce_times_tables cfgDot inpDot = .ok outDot
      ∧ outDot ≠ []
      ∧ compare outDot outDot = .ok (compareStats outDot outDot)
      ∧ (compareStats outDot outDot).totalCorrectRows = 0
      ∧ (compareStats outDot outDot).totalGtRows = 1
      ∧ (compareStats outDot outDot).totalCorrectRows
          ≠ (compareStats outDot outDot).totalGtRows) :=
  ⟨⟨by rfl, by rfl⟩,
    by decide, by rfl, by decide, by rfl, by rfl, by rfl, by decide⟩

/-- Claim C9 counterexample: with techgroup requested and supplied by the
source table (value G1), the produced TECHGROUP column repeats the techname
value T1 instead of using the supplied values unchanged. -/
theorem c9_counterexample :
    produce_times_tables cfgTechgroup inpTechgroup
        = .ok [("OUT", ⟨["TECH", "TECHGROUP", "VALUE"], [[some "T1", some "T1", some "5"]]⟩)]
      ∧ [[some "T1", some "T1", some "5"]] ≠ [[(some "T1" : Cell), some "G1", some "5"]] :=
  ⟨by rfl, by decide⟩

/-- Claim C10: a ground truth with zero total rows makes `compare` fail with
an unguarded division by zero in the final summary ratio. -/
theorem c10_zero_gt_rows_divzero (data gt : Store)
    (h : (gt.map (fun p => p.2.rows.length)).sum = 0) :
    compare data gt = .error "ZeroDivisionError: division by zero" := by
  have ht : (compareStats data gt).totalGtRows = 0 := by
    show ((sortGtTables gt).map (fun p => p.2.rows.length)).sum = 0
    rw [sortGt_sum]
    exact h
  unfold compare
  rw [if_pos ht]

/-- Witness for C10 at a one-table, zero-row ground truth. -/
theorem c10_witness :
    compare [("d", dfParKeyEx)] gtZeroRows = .error "ZeroDivisionError: division by zero" :=
  c10_zero_gt_rows_divzero [("d", dfParKeyEx)] gtZeroRows (by rfl)


/-- Claim C6: the store returned by `produce_times_tables` never contains an
empty table. -/
theorem c6_no_empty_tables (config : Config) (input r : Store)
    (hok : produce_times_tables config input = .ok r)
    (name : String) (df : DF) (hl : r.lookup name = some df) :
    df.rows ≠ [] := by
  rcases produceAux_entry input config.times_xl_maps [] r hok name df hl with
    hacc | ⟨m, hm, hn, df0, hdf0, hpe⟩
  · exact Option.noConfusion hacc
  · exact (processEntry_some hpe).2

/-- Witness for C6 at the worked example. -/
theorem c6_witness : outExDF.rows ≠ [] :=
  c6_no_empty_tables cfgEx inpEx [("VAR_TECH", outExDF)] (by rfl) "VAR_TECH" outExDF (by rfl)

/-- Reading back a cell just written at a valid index. -/
theorem getCell_set_self {r : List Cell} {i : Nat} {v : Cell} (h : i < r.length) :
    getCell (r.set i v) i = v := by
  unfold getCell
  rw [List.getD_eq_getElem?_getD, List.getElem?_set_self, Option.getD_some]
  exact h

/-- Reading back a cell just appended at the end of a row. -/
theorem getCell_append_self (r : List Cell) (v : Cell) :
    getCell (r ++ [v]) r.length = v := by
  unfold getCell
  rw [List.getD_eq_getElem?_getD, List.getElem?_append_right (Nat.le_refl _)]
  simp

/-- Column readback over rows with the written cells replaced in place. -/
theorem map_getCell_zipWith_set (rows : List (List Cell)) (vals : List Cell) (i : Nat)
    (hrows : ∀ r ∈ rows, i < r.length) (hlen : vals.length = rows.length) :
    (List.zipWith (fun r v => r.set i v) rows vals).map (fun r => getCell r i) = vals := by
  induction rows generalizing vals with
  | nil =>
    cases vals with
    | nil => rfl
    | cons v vs => simp at hlen
  | cons r rs ih =>
    cases vals with
    | nil => simp at hlen
    | cons v vs =>
      simp only [List.zipWith_cons_cons, List.map_cons,
        getCell_set_self (hrows r (List.mem_cons_self r rs))]
      rw [ih vs (fun r2 hr2 => hrows r2 (List.mem_cons_of_mem _ hr2)) (by simpa using hlen)]

/-- Column readback over rows with the written cells appended at the end. -/
theorem map_getCell_zipWith_append (rows : List (List Cell)) (vals : List Cell) (n : Nat)
    (hrows : ∀ r ∈ rows, r.length = n) (hlen : vals.length = rows.length) :
    (List.zipWith (fun r v => r ++ [v]) rows vals).map (fun r => getCell r n) = vals := by
  induction rows generalizing vals with
  | nil =>
    cases vals with
    | nil => rfl
    | cons v vs => simp at hlen
  | cons r rs ih =>
    cases vals with
    | nil => simp at hlen
    | cons v vs =>
      have hr : r.length = n := hrows r (List.mem_cons_self r rs)
      have hhead : getCell (r ++ [v]) n = v := by
        rw [← hr]
        exact getCell_append_self r v
      simp only [List.zipWith_cons_cons, List.map_cons, hhead]
      rw [ih vs (fun r2 hr2 => hrows r2 (List.mem_cons_of_mem _ hr2)) (by simpa using hlen)]

/-- Reading back the column just assigned by `setCol` on a well-formed table
returns exactly the assigned values. -/
theorem getCol_setCol_self {df : DF} {c : String} {vals : List Cell}
    (hwf : df.WF) (hlen : vals.length = df.rows.length) :
    (df.setCol c vals).getCol c = some vals := by
  unfold DF.setCol DF.getCol
  by_cases hc : c ∈ df.cols
  · rw [if_pos hc]
    have hidx : df.colIdx c < df.cols.length := List.indexOf_lt_length.mpr hc
    have hmem : c ∈ df.cols := hc
    rw [if_pos hmem]
    have hrows : ∀ r ∈ df.rows, df.colIdx c < r.length := by
      intro r hr
      rw [hwf.2 r hr]
      exact hidx
    rw [show (DF.mk df.cols
        (List.zipWith (fun r v => r.set (df.colIdx c) v) df.rows vals)).colIdx c
        = df.colIdx c from rfl]
    rw [map_getCell_zipWith_set df.rows vals (df.colIdx c) hrows hlen]
  · rw [if_neg hc]
    have hmem : c ∈ df.cols ++ [c] := List.mem_append_right _ (List.mem_singleton.mpr rfl)
    rw [if_pos hmem]
    have hidx : (DF.mk (df.cols ++ [c])
        (List.zipWith (fun r v => r ++ [v]) df.rows vals)).colIdx c = df.cols.length := by
      show (df.cols ++ [c]).indexOf c = df.cols.length
      rw [List.indexOf_append_of_not_mem hc]
      simp [List.indexOf_cons_self]
    rw [hidx]
    rw [map_getCell_zipWith_append df.rows vals df.cols.length (hwf.2) hlen]

/-- Claim C9 as amended: whenever techgroup belongs to `xl_cols`, the
techgroup column of the processed table equals the techname column of the
incoming table — the source overwrites any supplied techgroup values. -/
theorem c9_amended_techgroup_overwrite (xlCols : List String) (df df2 : DF)
    (hwf : df.WF) (htg : "techgroup" ∈ xlCols)
    (h : techgroupStep xlCols df = .ok df2) :
    df2.getCol "techgroup" = df.getCol "techname" := by
  unfold techgroupStep at h
  rw [if_pos htg] at h
  split at h
  · exact Except.noConfusion h
  · rename_i vals hg
    injection h with h2
    subst h2
    have hlen : vals.length = df.rows.length := by
      unfold DF.getCol at hg
      split at hg
      · injection hg with h3
        rw [← h3]
        simp
      · exact Option.noConfusion hg
    rw [getCol_setCol_self hwf hlen, hg]

/-- Witness for the amended C9: techgroup G1 supplied by the source is
replaced by techname T1. -/
theorem c9_witness : dfTgW2.getCol "techgroup" = dfTgW.getCol "techname" :=
  c9_amended_techgroup_overwrite ["techgroup"] dfTgW dfTgW2 (by decide) (by decide) (by rfl)

/-- An element of the routed name list that resolves to a parameter table
without a VALUE column forces the whole DD file content computation into an
error. -/
theorem ddFileContent_error_of_bad (tables : Store) (setNames : List String)
    (name : String) (df : DF) (hl : tables.lookup name = some df)
    (hset : name ∉ setNames) (hv : "VALUE" ∉ df.cols) :
    ∀ names : List String, name ∈ names →
      ∃ e, ddFileContent tables setNames names = .error e := by
  intro names hmem
  induction names with
  | nil => cases hmem
  | cons n rest ih =>
    by_cases hn : n = name
    · subst hn
      unfold ddFileContent
      split
      · rename_i heq
        rw [hl] at heq
        exact Option.noConfusion heq
      · rename_i df2 heq
        rw [hl] at heq
        injection heq with hdf
        subst hdf
        rw [if_neg hset]
        have hcp : convert_parameter n df
            = .error ("KeyError: Unable to find VALUE column in parameter " ++ n) := by
          unfold convert_parameter
          rw [if_neg hv]
        rw [hcp]
        exact ⟨_, rfl⟩
    · have hmem2 : name ∈ rest := by
        rcases List.mem_cons.mp hmem with h1 | h1
        · exact absurd h1.symm hn
        · exact h1
      obtain ⟨e, he⟩ := ih hmem2
      unfold ddFileContent
      split
      · exact ⟨e, he⟩
      · split
        · exact ⟨e, by rw [he]; rfl⟩
        · split
          · rename_i e2 hcp2
            exact ⟨e2, rfl⟩
          · exact ⟨e, by rw [he]; rfl⟩

/-- Claim C5 as amended: a table routed into the DD output, classified as a
parameter table and lacking a VALUE column makes `write_dd_files` fail
fatally (it is, however, not the only non-lenient path of the combination,
see the counterexample). -/
theorem c5_amended_missing_value_fatal (tables : Store) (config : Config)
    (name : String) (df : DF) (hl : tables.lookup name = some df)
    (hset : name ∉ setsOf config) (hv : "VALUE" ∉ df.cols)
    (hroute : name = "ALL_TS" ∨ name ∈ config.dd_table_order ∧ name ≠ "ALL_TS") :
    ∃ e, write_dd_files tables config = .error e := by
  unfold write_dd_files
  rcases hroute with h1 | ⟨h2, h3⟩
  · subst h1
    obtain ⟨e, he⟩ := ddFileContent_error_of_bad tables (setsOf config) "ALL_TS" df hl hset hv
      ["ALL_TS"] (List.mem_singleton.mpr rfl)
    rw [he]
    exact ⟨e, rfl⟩
  · cases hts : ddFileContent tables (setsOf config) ["ALL_TS"] with
    | error e => exact ⟨e, rfl⟩
    | ok ts =>
      have hmem : name ∈ config.dd_table_order.filter (fun t => t != "ALL_TS") :=
        List.mem_filter.mpr ⟨h2, bne_iff_ne.mpr h3⟩
      obtain ⟨e, he⟩ := ddFileContent_error_of_bad tables (setsOf config) name df hl hset hv
        (config.dd_table_order.filter (fun t => t != "ALL_TS")) hmem
      rw [he]
      exact ⟨e, rfl⟩

/-- Witness for the amended C5: parameter table PAR without a VALUE column
makes the serializer fail. -/
theorem c5_witness : ∃ e, write_dd_files tblParBad cfgPar = .error e :=
  c5_amended_missing_value_fatal tblParBad cfgPar "PAR"
    ⟨["K", "VAL"], [[some "X", some "10"]]⟩ (by rfl) (by decide) (by decide)
    (.inr ⟨by decide, by decide⟩)

/-- Mapping a pointwise-related pair of lists with functions that agree on
related elements gives equal lists. -/
theorem forall2_map_eq {α β γ : Type} {R : α → β → Prop} {f : α → γ} {g : β → γ}
    {l : List α} {l2 : List β} (h : List.Forall₂ R l l2)
    (hf : ∀ a b, R a b → f a = g b) : l.map f = l2.map g := by
  induction h with
  | nil => rfl
  | cons hab _ ih => simp [hf _ _ hab, ih]

/-- Pointwise row-permuted stores have the same table names. -/
theorem storeRowPerm_map_fst {gt gt2 : Store} (h : StoreRowPerm gt gt2) :
    gt.map Prod.fst = gt2.map Prod.fst :=
  forall2_map_eq h (fun _ _ hab => hab.1)

/-- Lookup fails exactly when the key is not among the store names. -/
theorem lookup_eq_none_iff (l : Store) (n : String) :
    l.lookup n = none ↔ n ∉ l.map Prod.fst := by
  induction l with
  | nil => simp [List.lookup]
  | cons p rest ih =>
    obtain ⟨pk, pv⟩ := p
    by_cases hn : n = pk
    · subst hn
      simp [List.lookup]
    · have hb : (n == pk) = false := beq_eq_false_iff_ne.mpr hn
      simp [List.lookup, hb, ih, hn]

/-- Stores with the same names agree on whether any lookup fails. -/
theorem lookup_isNone_congr {gt gt2 : Store}
    (hk : gt.map Prod.fst = gt2.map Prod.fst) (n : String) :
    (gt.lookup n).isNone = (gt2.lookup n).isNone := by
  have h1 := lookup_eq_none_iff gt n
  have h2 := lookup_eq_none_iff gt2 n
  rw [hk] at h1
  cases hx : gt.lookup n with
  | none =>
    rw [h2.mpr (h1.mp hx)]
  | some v =>
    cases hy : gt2.lookup n with
    | none =>
      rw [← hx]
      exact absurd (h1.mpr (h2.mp hy)) (by rw [hx]; exact fun hh => Option.noConfusion hh)
    | some w => rfl

/-- The correct-row count of one ground-truth table only depends on its name,
header and row set. -/
theorem correctOf_rowPerm (data : Store) {p q : String × DF}
    (h1 : p.1 = q.1) (h2 : p.2.cols = q.2.cols) (h3 : p.2.rows.Perm q.2.rows) :
    correctOf data p = correctOf data q := by
  unfold correctOf
  rw [h1]
  cases data.lookup q.1 with
  | none => rfl
  | some dt =>
    unfold headerOk rowSet
    rw [h2, perm_toFinset h3]

/-- The additional-row count of one ground-truth table only depends on its
name, header and row set. -/
theorem additionalOf_rowPerm (data : Store) {p q : String × DF}
    (h1 : p.1 = q.1) (h2 : p.2.cols = q.2.cols) (h3 : p.2.rows.Perm q.2.rows) :
    additionalOf data p = additionalOf data q := by
  unfold additionalOf
  rw [h1]
  cases data.lookup q.1 with
  | none => rfl
  | some dt =>
    unfold headerOk rowSet
    rw [h2, perm_toFinset h3]

/-- The missing-row count of one ground-truth table only depends on its name,
header and row set. -/
theorem missingOf_rowPerm (data : Store) {p q : String × DF}
    (h1 : p.1 = q.1) (h2 : p.2.cols = q.2.cols) (h3 : p.2.rows.Perm q.2.rows) :
    missingOf data p = missingOf data q := by
  unfold missingOf
  rw [h1]
  cases data.lookup q.1 with
  | none => rfl
  | some dt =>
    unfold headerOk rowSet
    rw [h2, perm_toFinset h3]

/-- Claim C8: permuting the rows of ground-truth tables changes none of the
correct-row, missing-row and additional-row counts reported by `compare`:
row comparison is an unordered exact-tuple set difference. -/
theorem c8_row_order_independent (data gt gt2 : Store) (h : StoreRowPerm gt gt2) :
    (compareStats data gt).totalCorrectRows = (compareStats data gt2).totalCorrectRows
      ∧ (compareStats data gt).totalMissingRows = (compareStats data gt2).totalMissingRows
      ∧ (compareStats data gt).totalAdditionalRows
          = (compareStats data gt2).totalAdditionalRows := by
  have hc : gt.map (correctOf data) = gt2.map (correctOf data) :=
    forall2_map_eq h (fun a b hab => correctOf_rowPerm data hab.1 hab.2.1 hab.2.2)
  have hm : gt.map (missingOf data) = gt2.map (missingOf data) :=
    forall2_map_eq h (fun a b hab => missingOf_rowPerm data hab.1 hab.2.1 hab.2.2)
  have ha : gt.map (additionalOf data) = gt2.map (additionalOf data) :=
    forall2_map_eq h (fun a b hab => additionalOf_rowPerm data hab.1 hab.2.1 hab.2.2)
  have hinit : data.filter (fun p => (gt.lookup p.1).isNone)
      = data.filter (fun p => (gt2.lookup p.1).isNone) := by
    apply List.filter_congr
    intro a _
    exact lookup_isNone_congr (storeRowPerm_map_fst h) a.1
  refine ⟨?_, ?_, ?_⟩
  · show ((sortGtTables gt).map (correctOf data)).sum
        = ((sortGtTables gt2).map (correctOf data)).sum
    rw [sortGt_sum, sortGt_sum, hc]
  · show ((sortGtTables gt).map (missingOf data)).sum
        = ((sortGtTables gt2).map (missingOf data)).sum
    rw [sortGt_sum, sortGt_sum, hm]
  · show ((data.filter (fun p => (gt.lookup p.1).isNone)).map (fun p => p.2.rows.length)).sum
          + ((sortGtTables gt).map (additionalOf data)).sum
        = ((data.filter (fun p => (gt2.lookup p.1).isNone)).map (fun p => p.2.rows.length)).sum
          + ((sortGtTables gt2).map (additionalOf data)).sum
    rw [sortGt_sum, sortGt_sum, ha, hinit]

/-- Witness for C8: reversing the two rows of the one ground-truth table
leaves all three counts unchanged. -/
theorem c8_witness :
    (compareStats [("d", dfParKeyEx)] gtPermA).totalCorrectRows
        = (compareStats [("d", dfParKeyEx)] gtPermB).totalCorrectRows
      ∧ (compareStats [("d", dfParKeyEx)] gtPermA).totalMissingRows
          = (compareStats [("d", dfParKeyEx)] gtPermB).totalMissingRows
      ∧ (compareStats [("d", dfParKeyEx)] gtPermA).totalAdditionalRows
          = (compareStats [("d", dfParKeyEx)] gtPermB).totalAdditionalRows :=
  c8_row_order_independent [("d", dfParKeyEx)] gtPermA gtPermB
    (List.Forall₂.cons ⟨rfl, rfl, List.Perm.swap _ _ _⟩ List.Forall₂.nil)

/-- Filtering rows preserves well-formedness. -/
theorem wf_filterRows {df : DF} (p : List Cell → Bool) (h : df.WF) :
    (DF.mk df.cols (df.rows.filter p)).WF :=
  ⟨h.1, fun r hr => h.2 r (List.mem_of_mem_filter hr)⟩

/-- The whole filter loop preserves well-formedness. -/
theorem applyFilters_wf : ∀ (frs : List (String × String)) {df df2 : DF},
    applyFilters df frs = .ok df2 → df.WF → df2.WF := by
  intro frs
  induction frs with
  | nil =>
    intro df df2 h hwf
    injection h with h1
    rw [← h1]
    exact hwf
  | cons fc rest ih =>
    intro df df2 h hwf
    obtain ⟨c, v⟩ := fc
    unfold applyFilters at h
    split at h
    · exact ih h (wf_filterRows _ hwf)
    · exact Except.noConfusion h

/-- Every element of a zipWith comes from an element of the first list. -/
theorem mem_zipWith_left {α β γ : Type} {f : α → β → γ} :
    ∀ {l1 : List α} {l2 : List β} {x : γ}, x ∈ List.zipWith f l1 l2 →
      ∃ a ∈ l1, ∃ b, x = f a b := by
  intro l1
  induction l1 with
  | nil => intro l2 x hx; cases hx
  | cons a l1t ih =>
    intro l2 x hx
    cases l2 with
    | nil => cases hx
    | cons b l2t =>
      rw [List.zipWith_cons_cons] at hx
      rcases List.mem_cons.mp hx with h1 | h1
      · exact ⟨a, List.mem_cons_self _ _, b, h1⟩
      · obtain ⟨a2, ha2, b2, hb2⟩ := ih h1
        exact ⟨a2, List.mem_cons_of_mem _ ha2, b2, hb2⟩

/-- Column assignment preserves well-formedness. -/
theorem setCol_wf {df : DF} {c : String} {vals : List Cell} (h : df.WF) :
    (df.setCol c vals).WF := by
  unfold DF.setCol
  by_cases hc : c ∈ df.cols
  · rw [if_pos hc]
    refine ⟨h.1, ?_⟩
    intro r hr
    obtain ⟨a, ha, b, hb⟩ := mem_zipWith_left hr
    rw [hb]
    simp [h.2 a ha]
  · rw [if_neg hc]
    constructor
    · simp [List.nodup_append, h.1, hc]
    · intro r hr
      obtain ⟨a, ha, b, hb⟩ := mem_zipWith_left hr
      rw [hb]
      simp [h.2 a ha]

/-- The techgroup step preserves well-formedness. -/
theorem techgroupStep_wf {xlc : List String} {df df2 : DF}
    (h : techgroupStep xlc df = .ok df2) (hwf : df.WF) : df2.WF := by
  unfold techgroupStep at h
  split at h
  · split at h
    · exact Except.noConfusion h
    · injection h with h1
      rw [← h1]
      exact setCol_wf hwf
  · injection h with h1
    rw [← h1]
    exact hwf

/-- The column materialization loop preserves well-formedness. -/
theorem applyColMap_wf : ∀ (cm : List (String × String)) {df df2 : DF},
    applyColMap df cm = .ok df2 → df.WF → df2.WF := by
  intro cm
  induction cm with
  | nil =>
    intro df df2 h hwf
    injection h with h1
    rw [← h1]
    exact hwf
  | cons p rest ih =>
    intro df df2 h hwf
    obtain ⟨tc, xc⟩ := p
    unfold applyColMap at h
    split at h
    · exact Except.noConfusion h
    · exact ih h (setCol_wf hwf)

/-- Projection produces rows aligned with the projected columns; it is
well-formed whenever the projected labels are distinct. -/
theorem projectCols_wf {df : DF} {nc : List String} (hnd : nc.Nodup) :
    (projectCols df nc).WF := by
  refine ⟨hnd, ?_⟩
  intro r hr
  obtain ⟨a, _, hb⟩ := List.mem_map.mp hr
  rw [← hb]
  simp [projectCols]

/-- Deduplicated rows avoid everything in the seen accumulator. -/
theorem dedupFirstAux_not_mem_seen :
    ∀ (rows seen : List (List Cell)) (x : List Cell),
      x ∈ dedupFirstAux seen rows → x ∉ seen := by
  intro rows
  induction rows with
  | nil => intro seen x hx; cases hx
  | cons r rest ih =>
    intro seen x hx
    unfold dedupFirstAux at hx
    split at hx
    · exact ih seen x hx
    · rcases List.mem_cons.mp hx with h1 | h1
      · rename_i hmem
        rw [h1]
        exact hmem
      · intro hseen
        exact ih (r :: seen) x h1 (List.mem_cons_of_mem _ hseen)

/-- Keep-first deduplication returns distinct rows. -/
theorem dedupFirstAux_nodup :
    ∀ (rows seen : List (List Cell)), (dedupFirstAux seen rows).Nodup := by
  intro rows
  induction rows with
  | nil => intro seen; exact List.nodup_nil
  | cons r rest ih =>
    intro seen
    unfold dedupFirstAux
    split
    · exact ih seen
    · refine List.nodup_cons.mpr ⟨?_, ih (r :: seen)⟩
      intro hmem
      exact dedupFirstAux_not_mem_seen rest (r :: seen) r hmem (List.mem_cons_self _ _)

/-- Keep-first deduplication only keeps original rows. -/
theorem dedupFirstAux_subset :
    ∀ (rows seen : List (List Cell)) (x : List Cell),
      x ∈ dedupFirstAux seen rows → x ∈ rows := by
  intro rows
  induction rows with
  | nil => intro seen x hx; cases hx
  | cons r rest ih =>
    intro seen x hx
    unfold dedupFirstAux at hx
    split at hx
    · exact List.mem_cons_of_mem _ (ih seen x hx)
    · rcases List.mem_cons.mp hx with h1 | h1
      · rw [h1]; exact List.mem_cons_self _ _
      · exact List.mem_cons_of_mem _ (ih (r :: seen) x h1)

/-- Deduplication preserves well-formedness, keeps the columns, and leaves
distinct rows. -/
theorem dedupDF_props {df : DF} (h : df.WF) :
    (dedupDF df).WF ∧ (dedupDF df).cols = df.cols ∧ (dedupDF df).rows.Nodup := by
  refine ⟨⟨h.1, ?_⟩, rfl, dedupFirstAux_nodup df.rows []⟩
  intro r hr
  exact h.2 r (dedupFirstAux_subset df.rows [] r hr)

/-- Two maps of the same list agree pointwise on its members. -/
theorem map_eq_map_elim {α β : Type} {f g : α → β} :
    ∀ {l : List α}, l.map f = l.map g → ∀ x ∈ l, f x = g x := by
  intro l
  induction l with
  | nil => intro _ x hx; cases hx
  | cons a rest ih =>
    intro h x hx
    rw [List.map_cons, List.map_cons] at h
    injection h with h1 h2
    rcases List.mem_cons.mp hx with hx1 | hx1
    · rw [hx1]; exact h1
    · exact ih h2 x hx1

/-- Projection onto `times_cols` is injective on rows aligned with a
duplicate-free column list that is contained in `times_cols`: every original
cell is recoverable from the projected row. -/
theorem proj_inj (cols tc : List String) (hnd : cols.Nodup)
    (hsub : ∀ c ∈ cols, c ∈ tc) (r1 r2 : List Cell)
    (h1 : r1.length = cols.length) (h2 : r2.length = cols.length)
    (heq : tc.map (fun c => getCell r1 (cols.indexOf c))
         = tc.map (fun c => getCell r2 (cols.indexOf c))) : r1 = r2 := by
  have hpt := map_eq_map_elim heq
  apply List.ext_getElem (h1.trans h2.symm)
  intro n hn1 hn2
  have hn : n < cols.length := by rw [← h1]; exact hn1
  have hc : cols[n] ∈ tc := hsub _ (List.getElem_mem hn)
  have hidx : cols.indexOf cols[n] = n := List.indexOf_getElem hnd n hn
  have hcell := hpt cols[n] hc
  rw [hidx] at hcell
  unfold getCell at hcell
  rw [List.getD_eq_getElem?_getD, List.getD_eq_getElem?_getD,
    List.getElem?_eq_getElem hn1, List.getElem?_eq_getElem hn2] at hcell
  simpa using hcell

/-- Successful finalization of a well-formed table with distinct rows and
columns contained in `times_cols` yields distinct rows. -/
theorem finalizeEntry_nodup {tc : List String} {df out : DF}
    (h : finalizeEntry tc df = .ok out) (hwf : df.WF) (hnd : df.rows.Nodup)
    (hsub : ∀ c ∈ df.cols, c ∈ tc) : out.rows.Nodup := by
  unfold finalizeEntry at h
  split at h
  · exact Except.noConfusion h
  · split at h
    · split at h
      · injection h with h3
        rw [← h3]
        refine List.Nodup.map_on ?_ (hnd.filter _)
        intro x hx y hy hxy
        exact proj_inj df.cols tc hwf.1 hsub x y
          (hwf.2 x (List.mem_of_mem_filter hx)) (hwf.2 y (List.mem_of_mem_filter hy)) hxy
      · exact Except.noConfusion h
    · exact Except.noConfusion h

/-- A stored entry result of a well-formed source table has distinct rows. -/
theorem processEntry_nodup {m : TimesXlMap} {df0 df : DF}
    (h : processEntry m df0 = .ok (some df)) (hwf : df0.WF) : df.rows.Nodup := by
  unfold processEntry at h
  split at h
  · exact Except.noConfusion h
  · rename_i df1 h1
    split at h
    · exact Except.noConfusion h
    · rename_i df2 h2
      split at h
      · split at h
        · exact Except.noConfusion h
        · rename_i df3 h3
          split at h
          · exact Except.noConfusion h
          · rename_i df6 h4
            split at h
            · injection h with h5
              exact Option.noConfusion h5
            · injection h with h5
              have h6 : df6 = df := by injection h5
              subst h6
              have hwf1 : df1.WF := applyFilters_wf m.filter_rows h1 hwf
              have hwf2 : df2.WF := techgroupStep_wf h2 hwf1
              have hwf3 : df3.WF := applyColMap_wf m.col_map h3 hwf2
              have hnd4 : (df3.cols.filter (fun c => decide (c ∈ m.times_cols))).Nodup :=
                hwf3.1.filter _
              have hwf4 : (dropToTimes m.times_cols df3).WF := projectCols_wf hnd4
              obtain ⟨hwf5, hcols5, hnd5⟩ := dedupDF_props hwf4
              have hsub : ∀ c ∈ (dedupDF (dropToTimes m.times_cols df3)).cols,
                  c ∈ m.times_cols := by
                intro c hc
                rw [hcols5] at hc
                have := List.mem_filter.mp hc
                exact of_decide_eq_true this.2
              exact finalizeEntry_nodup h4 hwf5 hnd5 hsub
      · injection h with h5
        exact Option.noConfusion h5

/-- A successful lookup names a member of the store. -/
theorem lookup_mem : ∀ {l : Store} {n : String} {v : DF},
    l.lookup n = some v → (n, v) ∈ l := by
  intro l
  induction l with
  | nil => intro n v h; exact Option.noConfusion h
  | cons q rest ih =>
    intro n v h
    obtain ⟨qk, qv⟩ := q
    by_cases hn : n = qk
    · subst hn
      simp [List.lookup] at h
      rw [h]
      exact List.mem_cons_self _ _
    · have hb : (n == qk) = false := beq_eq_false_iff_ne.mpr hn
      simp [List.lookup, hb] at h
      exact List.mem_cons_of_mem _ (ih h)

/-- With duplicate-free keys, every member is found by lookup. -/
theorem nodupkeys_lookup : ∀ {l : Store}, (l.map Prod.fst).Nodup →
    ∀ {p : String × DF}, p ∈ l → l.lookup p.1 = some p.2 := by
  intro l
  induction l with
  | nil => intro _ p hp; exact absurd hp (List.not_mem_nil p)
  | cons q rest ih =>
    intro hnd p hp
    obtain ⟨qk, qv⟩ := q
    have hnd2 : (qk ∉ rest.map Prod.fst) ∧ (rest.map Prod.fst).Nodup :=
      List.nodup_cons.mp (by simpa using hnd)
    rcases List.mem_cons.mp hp with h1 | h1
    · subst h1
      simp [List.lookup]
    · have hk : p.1 ≠ qk := by
        intro hh
        exact hnd2.1 (hh ▸ List.mem_map_of_mem Prod.fst h1)
      have hb : (p.1 == qk) = false := beq_eq_false_iff_ne.mpr hk
      simp only [List.lookup, hb]
      exact ih hnd2.2 h1

/-- A name among the store names is found by lookup. -/
theorem lookup_of_mem_fst : ∀ {l : Store} {n : String},
    n ∈ l.map Prod.fst → ∃ v, l.lookup n = some v := by
  intro l
  induction l with
  | nil => intro n h; exact absurd h (List.not_mem_nil n)
  | cons q rest ih =>
    intro n h
    obtain ⟨qk, qv⟩ := q
    by_cases hn : n = qk
    · subst hn
      exact ⟨qv, by simp [List.lookup]⟩
    · have hb : (n == qk) = false := beq_eq_false_iff_ne.mpr hn
      have h2 : n ∈ rest.map Prod.fst := by
        rw [List.map_cons] at h
        rcases List.mem_cons.mp h with h3 | h3
        · exact absurd h3 hn
        · exact h3
      obtain ⟨v, hv⟩ := ih h2
      exact ⟨v, by simp [List.lookup, hb, hv]⟩

/-- Names after insert-or-replace: unchanged on replacement, the new name
appended otherwise. -/
theorem storeInsert_map_fst (s : Store) (k : String) (v : DF) :
    (storeInsert s k v).map Prod.fst
      = if k ∈ s.map Prod.fst then s.map Prod.fst else s.map Prod.fst ++ [k] := by
  induction s with
  | nil => simp [storeInsert]
  | cons q rest ih =>
    obtain ⟨qk, qv⟩ := q
    by_cases hq : qk = k
    · subst hq
      simp [storeInsert]
    · have hne : ¬ k = qk := fun hh => hq hh.symm
      by_cases hk : k ∈ rest.map Prod.fst
      · simp [storeInsert, hq, ih, hk, hne]
      · simp [storeInsert, hq, ih, hk, hne]

/-- Insert-or-replace preserves duplicate-free names. -/
theorem storeInsert_keys_nodup {s : Store} {k : String} {v : DF}
    (h : (s.map Prod.fst).Nodup) : ((storeInsert s k v).map Prod.fst).Nodup := by
  by_cases hk : k ∈ s.map Prod.fst
  · rw [storeInsert_map_fst, if_pos hk]
    exact h
  · rw [storeInsert_map_fst, if_neg hk]
    simp [List.nodup_append, h, hk]

/-- Insert-or-replace preserves any per-entry property satisfied by the new
entry. -/
theorem storeInsert_forall {P : String × DF → Prop} :
    ∀ {s : Store} {k : String} {v : DF},
      (∀ p ∈ s, P p) → P (k, v) → ∀ p ∈ storeInsert s k v, P p := by
  intro s
  induction s with
  | nil =>
    intro k v _ hkv p hp
    rcases List.mem_cons.mp hp with h1 | h1
    · rw [h1]; exact hkv
    · exact absurd h1 (List.not_mem_nil p)
  | cons q rest ih =>
    intro k v h hkv p hp
    unfold storeInsert at hp
    split at hp
    · rcases List.mem_cons.mp hp with h1 | h1
      · rw [h1]; exact hkv
      · exact h p (List.mem_cons_of_mem _ h1)
    · rcases List.mem_cons.mp hp with h1 | h1
      · rw [h1]; exact h q (List.mem_cons_self _ _)
      · exact ih (fun p2 hp2 => h p2 (List.mem_cons_of_mem _ hp2)) hkv p h1

/-- Structural invariant of the Canonicalizer loop on well-formed inputs:
result names are duplicate-free and every stored table is nonempty with
distinct rows. -/
theorem produceAux_inv (input : Store) (hwfin : ∀ p ∈ input, p.2.WF) :
    ∀ (maps : List TimesXlMap) (acc r : Store),
      produceAux input acc maps = .ok r →
      (acc.map Prod.fst).Nodup →
      (∀ p ∈ acc, p.2.rows ≠ [] ∧ p.2.rows.Nodup) →
      (r.map Prod.fst).Nodup ∧ ∀ p ∈ r, p.2.rows ≠ [] ∧ p.2.rows.Nodup := by
  intro maps
  induction maps with
  | nil =>
    intro acc r h hk hp
    injection h with h1
    subst h1
    exact ⟨hk, hp⟩
  | cons m rest ih =>
    intro acc r h hk hp
    unfold produceAux at h
    split at h
    · exact ih acc r h hk hp
    · rename_i df0 hin
      split at h
      · exact Except.noConfusion h
      · exact ih acc r h hk hp
      · rename_i dfN hpe
        have hwf0 : df0.WF := hwfin (m.xl_name, df0) (lookup_mem hin)
        have hnew : dfN.rows ≠ [] ∧ dfN.rows.Nodup :=
          ⟨(processEntry_some hpe).2, processEntry_nodup hpe hwf0⟩
        exact ih _ r h (storeInsert_keys_nodup hk) (storeInsert_forall hp hnew)

/-- Observable counts of comparing a store against itself, for a store with
duplicate-free names, nonempty duplicate-free tables and dot-free column
names. -/
theorem compareStats_self (r : Store) (hkeys : (r.map Prod.fst).Nodup)
    (hprops : ∀ p ∈ r, p.2.rows ≠ [] ∧ p.2.rows.Nodup)
    (hdots : ∀ p ∈ r, ∀ c ∈ p.2.cols, stripDot c = c) (hne : r ≠ []) :
    (compareStats r r).missingTables = []
      ∧ (compareStats r r).additionalTables = []
      ∧ (compareStats r r).totalAdditionalRows = 0
      ∧ (compareStats r r).totalMissingRows = 0
      ∧ (compareStats r r).totalCorrectRows = (compareStats r r).totalGtRows
      ∧ 0 < (compareStats r r).totalGtRows := by
  have hho : ∀ p ∈ r, headerOk p.2 p.2 = true := by
    intro p hp
    unfold headerOk
    have h1 : p.2.cols.map stripDot = p.2.cols.map id :=
      List.map_congr_left (fun c hc => hdots p hp c hc)
    rw [h1, List.map_id]
    exact beq_self_eq_true _
  have hlook : ∀ p ∈ r, r.lookup p.1 = some p.2 := fun p hp => nodupkeys_lookup hkeys hp
  have hmt : (r.map Prod.fst).filter (fun n => (r.lookup n).isNone) = [] := by
    rw [List.filter_eq_nil_iff]
    intro n hn
    obtain ⟨v, hv⟩ := lookup_of_mem_fst hn
    simp [hv]
  have hinit : r.filter (fun p => (r.lookup p.1).isNone) = [] := by
    rw [List.filter_eq_nil_iff]
    intro p hp
    simp [hlook p hp]
  refine ⟨hmt, hmt, ?_, ?_, ?_, ?_⟩
  · show (((r.filter (fun p => (r.lookup p.1).isNone)).map (fun p => p.2.rows.length)).sum
        + ((sortGtTables r).map (additionalOf r)).sum) = 0
    rw [hinit, sortGt_sum]
    simp only [List.map_nil, List.sum_nil, Nat.zero_add]
    apply List.sum_eq_zero
    intro x hx
    obtain ⟨p, hp, hpx⟩ := List.mem_map.mp hx
    rw [← hpx]
    simp [additionalOf, hlook p hp, hho p hp]
  · show ((sortGtTables r).map (missingOf r)).sum = 0
    rw [sortGt_sum]
    apply List.sum_eq_zero
    intro x hx
    obtain ⟨p, hp, hpx⟩ := List.mem_map.mp hx
    rw [← hpx]
    simp [missingOf, hlook p hp, hho p hp]
  · show ((sortGtTables r).map (correctOf r)).sum
        = ((sortGtTables r).map (fun p => p.2.rows.length)).sum
    rw [sortGt_sum, sortGt_sum]
    congr 1
    apply List.map_congr_left
    intro p hp
    simp [correctOf, rowSet, hlook p hp, hho p hp,
      List.toFinset_card_of_nodup (hprops p hp).2]
  · show 0 < ((sortGtTables r).map (fun p => p.2.rows.length)).sum
    rw [sortGt_sum]
    cases r with
    | nil => exact absurd rfl hne
    | cons p rest =>
      have h1 : p.2.rows.length ∈ (p :: rest).map (fun q => q.2.rows.length) :=
        List.mem_map_of_mem _ (List.mem_cons_self _ _)
      have h2 : 0 < p.2.rows.length :=
        List.length_pos.mpr (hprops p (List.mem_cons_self _ _)).1
      exact Nat.lt_of_lt_of_le h2
        (List.single_le_sum (fun x _ => Nat.zero_le x) _ h1)

/-- Claim C7 as amended: for every nonempty store produced from well-formed
input tables whose produced column names contain no dot, comparing it against
an equal ground truth reports no missing tables, no additional tables, zero
missing rows, zero additional rows, and a 100 percent ratio (correct rows
equal ground-truth rows); the empty produced store instead aborts the
ratio computation. -/
theorem c7_amended_self_compare (config : Config) (input r : Store)
    (hwfin : ∀ p ∈ input, p.2.WF)
    (hok : produce_times_tables config input = .ok r)
    (hne : r ≠ [])
    (hdots : ∀ p ∈ r, ∀ c ∈ p.2.cols, stripDot c = c) :
    compare r r = .ok (compareStats r r)
      ∧ (compareStats r r).missingTables = []
      ∧ (compareStats r r).additionalTables = []
      ∧ (compareStats r r).totalAdditionalRows = 0
      ∧ (compareStats r r).totalMissingRows = 0
      ∧ (compareStats r r).totalCorrectRows = (compareStats r r).totalGtRows := by
  obtain ⟨hkeys, hprops⟩ := produceAux_inv input hwfin config.times_xl_maps [] r hok
    List.nodup_nil (fun p hp => absurd hp (List.not_mem_nil p))
  obtain ⟨hmt, hat, hta, htm, htc, hpos⟩ := compareStats_self r hkeys hprops hdots hne
  refine ⟨?_, hmt, hat, hta, htm, htc⟩
  unfold compare
  rw [if_neg (Nat.pos_iff_ne_zero.mp hpos)]

/-- Witness for the amended C7 at the worked example output. -/
theorem c7_witness :
    compare [("VAR_TECH", outExDF)] [("VAR_TECH", outExDF)]
        = .ok (compareStats [("VAR_TECH", outExDF)] [("VAR_TECH", outExDF)])
      ∧ (compareStats [("VAR_TECH", outExDF)] [("VAR_TECH", outExDF)]).missingTables = []
      ∧ (compareStats [("VAR_TECH", outExDF)] [("VAR_TECH", outExDF)]).additionalTables = []
      ∧ (compareStats [("VAR_TECH", outExDF)] [("VAR_TECH", outExDF)]).totalAdditionalRows = 0
      ∧ (compareStats [("VAR_TECH", outExDF)] [("VAR_TECH", outExDF)]).totalMissingRows = 0
      ∧ (compareStats [("VAR_TECH", outExDF)] [("VAR_TECH", outExDF)]).totalCorrectRows
          = (compareStats [("VAR_TECH", outExDF)] [("VAR_TECH", outExDF)]).totalGtRows :=
  c7_amended_self_compare cfgEx inpEx [("VAR_TECH", outExDF)] (by decide) (by rfl)
    (by decide) (by decide)

end TimesReader
